import Mathlib

/-!
# Third-component discover pool

A shallow embedding of `worker/master/controller/thirdcomponent/discover_pool.go`.

Go pointers to `Worker` are addresses into a heap (`DiscoverPool.workers`); the
registry `discoverWorker` maps a key to such an address.  Goroutines running
`Worker.Start` are entries of `DiscoverPool.loops`, each with a program counter, and
the scheduler is the relation `Step`: the methods of the pool run atomically (they
hold `d.lock` from beginning to end), the statements of `Worker.Start` interleave
freely with them.
-/

namespace thirdcomponent

/-! ## Data model -/

/-- Modelled from the spec: the element type of `Status.Endpoints` is declared in the
`v1alpha1` package, which is not part of the sources at hand; the spec only calls it a
"list of discovered endpoints", so an endpoint is represented by its address. -/
structure ThirdComponentEndpointStatus where
  Address : String
  deriving DecidableEq, Repr

/-- The fields of `v1alpha1.ThirdComponent` that the pool reads.  `Endpoints` is a Go
slice: `none` is the nil slice and `some []` the empty non-nil slice, which
`reflect.DeepEqual` tells apart. -/
structure ThirdComponent where
  Namespace : String
  Name : String
  Endpoints : Option (List ThirdComponentEndpointStatus)
  deriving DecidableEq, Repr

/-- The zero value of `v1alpha1.ThirdComponent` (`var old v1alpha1.ThirdComponent`). -/
def ThirdComponent.zero : ThirdComponent :=
  { Namespace := "", Name := "", Endpoints := none }

/-- A value of the interface `dis.Discover`: `ref` identifies the value, `component`
is what `GetComponent()` returns (`none` for a nil pointer). -/
structure Discover where
  ref : Nat
  component : Option ThirdComponent
  deriving DecidableEq, Repr

/-- Method `GetComponent` of the interface. -/
def Discover.GetComponent (dis : Discover) : Option ThirdComponent :=
  dis.component

/-- The struct `Worker`.  `cancelled` is the state of the pair `ctx`/`cancel` made by
`newWorker`: it is `true` once `cancel` has been called.  The field `updateChan` is
the pool's channel and is kept in the pool. -/
structure Worker where
  discover : Discover
  cancelled : Bool
  stoped : Bool
  deriving DecidableEq, Repr

/-- Program counter of a goroutine running `Worker.Start`. -/
inductive Pc where
  /-- Created by `go w.Start()`, no statement run yet. -/
  | start
  /-- About to call `w.discover.Discover(w.ctx, w.updateChan)`. -/
  | discover
  /-- About to run the `select` on `w.ctx.Done()`. -/
  | check
  /-- Returned; the deferred function has run. -/
  | exited
  deriving DecidableEq, Repr

/-- A goroutine running `Worker.Start` on the Worker at address `worker`; `calls`
counts its invocations of `Discover`. -/
structure Loop where
  worker : Nat
  pc : Pc
  calls : Nat
  deriving DecidableEq, Repr

/-- The struct `DiscoverPool` together with the heap of Workers and the goroutines
it has created.  `ctxDone` is the state of `d.ctx`. -/
structure DiscoverPool where
  ctxDone : Bool
  workers : List Worker
  discoverWorker : AList (fun _ : String => Nat)
  loops : List Loop
  updateChan : List ThirdComponent
  deriving DecidableEq

/-- Function `NewDiscoverPool`: an empty registry and an empty channel; the pool's
context is not done. -/
def NewDiscoverPool : DiscoverPool :=
  { ctxDone := false, workers := [], discoverWorker := ∅, loops := [], updateChan := [] }

/-- Capacity of `updateChan` (`make(chan *v1alpha1.ThirdComponent, 1024)`). -/
def updateChanCap : Nat := 1024

/-- Method `GetSize`: `len(d.discoverWorker)`; the conversion to `float64` is exact. -/
def DiscoverPool.GetSize (d : DiscoverPool) : Nat :=
  d.discoverWorker.keys.length

/-- The registry key: `component.Namespace + component.Name`. -/
def registryKey (ns name : String) : String :=
  ns ++ name

/-! ## Worker -/

/-- Method `Worker.UpdateDiscover`: `w.discover = discover`. -/
def Worker.UpdateDiscover (w : Worker) (discover : Discover) : Worker :=
  { w with discover := discover }

/-- Method `Worker.Stop`: calls `w.cancel()`. -/
def Worker.Stop (w : Worker) : Worker :=
  { w with cancelled := true }

/-- Method `Worker.IsStop`: returns `w.stoped`. -/
def Worker.IsStop (w : Worker) : Bool :=
  w.stoped

/-- Method `DiscoverPool.newWorker`: the context is derived from `d.ctx` and `cancel` has not
been called; `stoped` has its zero value. -/
def DiscoverPool.newWorker (_d : DiscoverPool) (dis : Discover) : Worker :=
  { discover := dis, cancelled := false, stoped := false }

/-- Whether `w.ctx.Done()` is ready: `w.ctx` is a child of `d.ctx`, so it is done when
`cancel` was called or the pool's context is done. -/
def DiscoverPool.workerCtxDone (d : DiscoverPool) (w : Worker) : Bool :=
  d.ctxDone || w.cancelled

/-- The statement `go w.Start()` for the Worker at address `a`. -/
def DiscoverPool.spawn (d : DiscoverPool) (a : Nat) : DiscoverPool :=
  { d with loops := d.loops ++ [{ worker := a, pc := Pc.start, calls := 0 }] }

/-! ## Pool operations -/

/-- Method `DiscoverPool.AddDiscover`.  A nil component returns at once; an existing
Worker gets the new discoverer and, when it reports stopped, a new goroutine; a
missing key gets a new Worker, a goroutine, and an entry of the registry.  The branch
on a dangling address cannot be taken in a reachable pool (`WellFormed`). -/
def DiscoverPool.AddDiscover (d : DiscoverPool) (dis : Discover) : DiscoverPool :=
  match dis.GetComponent with
  | none => d
  | some component =>
    let key := registryKey component.Namespace component.Name
    match d.discoverWorker.lookup key with
    | some a =>
      match d.workers[a]? with
      | some olddis =>
        let w := olddis.UpdateDiscover dis
        let d1 := { d with workers := d.workers.set a w }
        if w.IsStop then d1.spawn a else d1
      | none => d
    | none =>
      let a := d.workers.length
      let d1 := { d with workers := d.workers ++ [d.newWorker dis] }
      let d2 := d1.spawn a
      { d2 with discoverWorker := d2.discoverWorker.insert key a }

/-- The body shared by both removals once the key is computed: `olddis.Stop()` and
`delete(d.discoverWorker, key)` when the key exists. -/
def DiscoverPool.stopAndDelete (d : DiscoverPool) (key : String) : DiscoverPool :=
  match d.discoverWorker.lookup key with
  | some a =>
    { d with
      workers := d.workers.modify Worker.Stop a
      discoverWorker := d.discoverWorker.erase key }
  | none => d

/-- Method `DiscoverPool.RemoveDiscover`. -/
def DiscoverPool.RemoveDiscover (d : DiscoverPool) (component : ThirdComponent) :
    DiscoverPool :=
  d.stopAndDelete (registryKey component.Namespace component.Name)

/-- The struct `types.NamespacedName`. -/
structure NamespacedName where
  Namespace : String
  Name : String
  deriving DecidableEq, Repr

/-- Method `DiscoverPool.RemoveDiscoverByName`. -/
def DiscoverPool.RemoveDiscoverByName (d : DiscoverPool) (req : NamespacedName) :
    DiscoverPool :=
  d.stopAndDelete (registryKey req.Namespace req.Name)

/-! ## The run loop of a Worker -/

/-- One statement of `Worker.Start`, run by the goroutine `l` in the pool `d`; `msgs`
is what the call of `Discover` sends on `updateChan`.

* `start`: `w.stoped = false`;
* `discover`: `w.discover.Discover(w.ctx, w.updateChan)`;
* `check`: the `select`: when `w.ctx.Done()` is ready the function returns and the
  deferred function sets `w.stoped = true`, otherwise the loop goes round. -/
def Worker.Start.step (d : DiscoverPool) (l : Loop) (msgs : List ThirdComponent) :
    DiscoverPool × Loop :=
  match l.pc with
  | Pc.start =>
    ({ d with workers := d.workers.modify (fun w => { w with stoped := false }) l.worker },
     { l with pc := Pc.discover })
  | Pc.discover =>
    ({ d with updateChan := d.updateChan ++ msgs },
     { l with pc := Pc.check, calls := l.calls + 1 })
  | Pc.check =>
    match d.workers[l.worker]? with
    | some w =>
      if d.workerCtxDone w then
        ({ d with workers := d.workers.modify (fun w => { w with stoped := true }) l.worker },
         { l with pc := Pc.exited })
      else (d, { l with pc := Pc.discover })
    | none => (d, l)
  | Pc.exited => (d, l)

/-- The goroutine at position `i` of `d.loops` runs its next statement. -/
def DiscoverPool.stepLoop (d : DiscoverPool) (i : Nat) (msgs : List ThirdComponent) :
    DiscoverPool :=
  match d.loops[i]? with
  | some l =>
    let r := Worker.Start.step d l msgs
    { r.1 with loops := r.1.loops.set i r.2 }
  | none => d

/-- The goroutine at position `i` runs `n` statements, each call of `Discover`
sending `msgs`. -/
def DiscoverPool.runLoop (d : DiscoverPool) (i : Nat) (msgs : List ThirdComponent) :
    Nat → DiscoverPool
  | 0 => d
  | n + 1 => (d.stepLoop i msgs).runLoop i msgs n

/-- A goroutine is active from `go w.Start()` until `Worker.Start` returns. -/
def Loop.active (l : Loop) : Bool :=
  l.pc != Pc.exited

/-- The goroutines of `d` that are active on the Worker at address `a`. -/
def DiscoverPool.activeLoops (d : DiscoverPool) (a : Nat) : List Loop :=
  d.loops.filter (fun l => l.active && l.worker == a)

/-! ## The reconciliation step -/

/-- The errors `updateStatus` returns, as far as `apierrors.IsNotFound` tells them
apart. -/
inductive StatusError where
  | notFound
  | other
  deriving DecidableEq, Repr

/-- Function `apierrors.IsNotFound`. -/
def StatusError.IsNotFound : StatusError → Bool
  | StatusError.notFound => true
  | StatusError.other => false

/-- Modelled from the spec: the struct `Reconciler` and its method `updateStatus` are
not part of the sources at hand.  The spec gives the store two operations,
`get(ctx, key) → EntityStatus, err` and `updateStatus(ctx, EntityStatus) → err`
"where err may be a distinguished not-found kind"; they are taken here as functions
of a store state `σ`.  `get` returns `none` when it fails, in which case `old` keeps
its zero value. -/
structure Reconciler (σ : Type) where
  get : σ → String → String → Option ThirdComponent
  updateStatus : σ → ThirdComponent → σ × Option StatusError

/-- What one round of the `select` of `DiscoverPool.Start` leaves behind: the store,
the pool, and the calls of `updateStatus` it made with what each returned. -/
structure Reconciled (σ : Type) where
  store : σ
  pool : DiscoverPool
  writes : List (ThirdComponent × Option StatusError)

/-- The function literal run by `DiscoverPool.Start` for a `component` received from
`updateChan`. -/
def DiscoverPool.reconcile {σ : Type} (r : Reconciler σ) (st : σ) (d : DiscoverPool)
    (component : ThirdComponent) : Reconciled σ :=
  let old := (r.get st component.Namespace component.Name).getD ThirdComponent.zero
  if component.Endpoints ≠ old.Endpoints then
    match r.updateStatus st component with
    | (st1, some err) =>
      if err.IsNotFound then
        { store := st1, pool := d.RemoveDiscover component, writes := [(component, some err)] }
      else
        { store := st1, pool := d, writes := [(component, some err)] }
    | (st1, none) => { store := st1, pool := d, writes := [(component, none)] }
  else
    { store := st, pool := d, writes := [] }

/-- The case `component := <-d.updateChan` of `DiscoverPool.Start`: takes the first
message off the channel and reconciles it. -/
def DiscoverPool.receive {σ : Type} (r : Reconciler σ) (st : σ) (d : DiscoverPool) :
    Reconciled σ :=
  match d.updateChan with
  | component :: rest => DiscoverPool.reconcile r st { d with updateChan := rest } component
  | [] => { store := st, pool := d, writes := [] }

/-! ## Executions -/

/-- What can happen to a pool: a call of one of its methods, the cancellation of its
context, a statement of one of the run loops, or a round of the reconciliation
loop.  A call of `Discover` is enabled when what it sends fits the channel.  The
reconciliation loop is allowed a round whatever the state of `d.ctx`, which only adds
executions: the `select` of `DiscoverPool.Start` may take a message that is ready
even when `d.ctx.Done()` is ready too. -/
inductive Step : DiscoverPool → DiscoverPool → Prop where
  | add (d : DiscoverPool) (dis : Discover) : Step d (d.AddDiscover dis)
  | remove (d : DiscoverPool) (component : ThirdComponent) :
      Step d (d.RemoveDiscover component)
  | removeByName (d : DiscoverPool) (req : NamespacedName) :
      Step d (d.RemoveDiscoverByName req)
  | cancel (d : DiscoverPool) : Step d { d with ctxDone := true }
  | loop (d : DiscoverPool) (i : Nat) (msgs : List ThirdComponent)
      (hcap : d.updateChan.length + msgs.length ≤ updateChanCap) :
      Step d (d.stepLoop i msgs)
  | receive {σ : Type} (d : DiscoverPool) (r : Reconciler σ) (st : σ) :
      Step d (d.receive r st).pool

/-- The pools an execution can reach from `NewDiscoverPool`. -/
inductive Reachable : DiscoverPool → Prop where
  | init : Reachable NewDiscoverPool
  | step {d d1 : DiscoverPool} : Reachable d → Step d d1 → Reachable d1

/-- The Worker registered under `key`, with its address. -/
def DiscoverPool.registered (d : DiscoverPool) (key : String) : Option (Nat × Worker) :=
  match d.discoverWorker.lookup key with
  | some a => (d.workers[a]?).map (fun w => (a, w))
  | none => none

/-! ## Predicates and sample values -/

/-- A store "persists successful writes" when a write that returned no error is read
back by the next `get` of the same entity. -/
def PersistsWrites {σ : Type} (r : Reconciler σ) : Prop :=
  ∀ (st st1 : σ) (c : ThirdComponent), r.updateStatus st c = (st1, none) →
    (r.get st1 c.Namespace c.Name).map (fun o => o.Endpoints) = some c.Endpoints

/-- A store holding the endpoints of one entity: every write succeeds and is kept. -/
def memoryStore : Reconciler (Option (List ThirdComponentEndpointStatus)) :=
  { get := fun st ns name => some { Namespace := ns, Name := name, Endpoints := st }
    updateStatus := fun _ c => (c.Endpoints, none) }

/-- A store that holds nothing and whose writes fail with an error other than
"not found". -/
def failingStore : Reconciler Unit :=
  { get := fun _ _ _ => none
    updateStatus := fun st _ => (st, some StatusError.other) }

/-- A store from which every entity has been deleted. -/
def deletedStore : Reconciler Unit :=
  { get := fun _ _ _ => none
    updateStatus := fun st _ => (st, some StatusError.notFound) }

/-- Entity `ns/a` reporting one endpoint. -/
def compA : ThirdComponent :=
  { Namespace := "ns", Name := "a", Endpoints := some [{ Address := "10.0.0.1" }] }

/-- Entity `ns/b` reporting no endpoint. -/
def compB : ThirdComponent :=
  { Namespace := "ns", Name := "b", Endpoints := none }

/-- Entity with namespace `a` and name `bc`. -/
def compX : ThirdComponent :=
  { Namespace := "a", Name := "bc", Endpoints := none }

/-- Entity with namespace `ab` and name `c`. -/
def compY : ThirdComponent :=
  { Namespace := "ab", Name := "c", Endpoints := none }

/-- A discoverer of `compA`. -/
def disA : Discover := { ref := 1, component := some compA }

/-- Another discoverer of `compA`. -/
def disA2 : Discover := { ref := 2, component := some compA }

/-- A discoverer of `compB`. -/
def disB : Discover := { ref := 3, component := some compB }

/-- A discoverer whose `GetComponent()` returns nil. -/
def disNil : Discover := { ref := 4, component := none }

/-- A discoverer of `compX`. -/
def disX : Discover := { ref := 5, component := some compX }

/-- A discoverer of `compY`. -/
def disY : Discover := { ref := 6, component := some compY }

/-- The pool after `AddDiscover(disA)`, once the run loop has run `w.stoped = false`. -/
def poolRunning : DiscoverPool :=
  (NewDiscoverPool.AddDiscover disA).stepLoop 0 []

/-- The pool `poolRunning` after its context was cancelled. -/
def poolCancelled : DiscoverPool :=
  { poolRunning with ctxDone := true }

/-- The pool `poolCancelled` after the run loop returned from `Discover`, saw the
cancellation and exited: the Worker of `compA` is registered and marked stopped. -/
def poolStopped : DiscoverPool :=
  (poolCancelled.stepLoop 0 []).stepLoop 0 []

/-- The pool `poolStopped` after `AddDiscover(disA)` and `AddDiscover(disA2)`. -/
def poolRestartedTwice : DiscoverPool :=
  (poolStopped.AddDiscover disA).AddDiscover disA2

/-- The pool `poolRestartedTwice` after both restarted loops ran `w.stoped = false`. -/
def poolRacing : DiscoverPool :=
  (poolRestartedTwice.stepLoop 1 []).stepLoop 2 []

/-- The pool after `AddDiscover(disA)` and `AddDiscover(disB)`, both loops running. -/
def poolTwo : DiscoverPool :=
  ((poolRunning.AddDiscover disB).stepLoop 1 [])

/-- Entity `ns/b` reporting an empty, non-nil list of endpoints. -/
def compBEmpty : ThirdComponent :=
  { Namespace := "ns", Name := "b", Endpoints := some [] }

/-- The pool `poolTwo` with one message of `compBEmpty` waiting on the channel. -/
def poolTwoPending : DiscoverPool :=
  { poolTwo with updateChan := [compBEmpty] }

/-- An empty pool with one message of `compA` waiting on the channel. -/
def poolOneMessage : DiscoverPool :=
  { NewDiscoverPool with updateChan := [compA] }

/-- An empty pool with two messages of `compA` waiting on the channel. -/
def poolTwoMessages : DiscoverPool :=
  { NewDiscoverPool with updateChan := [compA, compA] }

/-- The goroutine at position `i` runs `Worker.Start` on the Worker at address `a`,
is at `pc` after `calls` invocations of `Discover`, and the context of that Worker is
done. -/
def CancelledLoop (s : DiscoverPool) (i a : Nat) (pc : Pc) (calls : Nat) : Prop :=
  s.loops[i]? = some { worker := a, pc := pc, calls := calls } ∧
  ∃ w : Worker, s.workers[a]? = some w ∧ s.workerCtxDone w = true

/-- Every registered address is an address of the heap, and no two keys share a
Worker. -/
def WellFormed (d : DiscoverPool) : Prop :=
  ∀ (k : String) (a : Nat), d.discoverWorker.lookup k = some a →
    a < d.workers.length ∧ ∀ k1 : String, d.discoverWorker.lookup k1 = some a → k1 = k

/-- Every Worker of the heap that is marked stopped has a context that is done. -/
def StoppedCancelled (d : DiscoverPool) : Prop :=
  ∀ (a : Nat) (w : Worker), d.workers[a]? = some w → w.stoped = true →
    d.workerCtxDone w = true

/-! ## Lemmas on the heap of Workers -/

/-- A Worker of the heap after `modify`. -/
theorem workers_modify_some {f : Worker → Worker} {ws : List Worker} {a b : Nat}
    {w : Worker} (h : (ws.modify f a)[b]? = some w) :
    ws[b]? = some w ∨ (b = a ∧ ∃ w0, ws[a]? = some w0 ∧ w = f w0) := by
  rw [List.getElem?_modify] at h
  cases hb : ws[b]? with
  | none => simp [hb] at h
  | some w0 =>
    rw [hb] at h
    by_cases hab : a = b
    · subst hab
      right
      simp at h
      exact ⟨rfl, w0, hb, h.symm⟩
    · left
      simp [hab] at h
      rw [h]

/-- A Worker of the heap after `set`. -/
theorem workers_set_some {ws : List Worker} {a b : Nat} {w0 w : Worker}
    (h : (ws.set a w0)[b]? = some w) : ws[b]? = some w ∨ (b = a ∧ w = w0) := by
  by_cases hab : a = b
  · subst hab
    right
    rw [List.getElem?_set] at h
    simp at h
    exact ⟨rfl, h.2.symm⟩
  · left
    rwa [List.getElem?_set_ne hab] at h

/-- A Worker of the heap after an allocation. -/
theorem workers_append_some {ws : List Worker} {b : Nat} {w0 w : Worker}
    (h : (ws ++ [w0])[b]? = some w) : ws[b]? = some w ∨ (b = ws.length ∧ w = w0) := by
  rcases Nat.lt_or_ge b ws.length with hb | hb
  · left
    rwa [List.getElem?_append_left hb] at h
  · right
    rw [List.getElem?_append_right hb] at h
    rcases Nat.eq_or_lt_of_le hb with heq | hlt
    · subst heq
      simp at h
      exact ⟨rfl, h.symm⟩
    · have : 0 < b - ws.length := Nat.sub_pos_of_lt hlt
      obtain ⟨n, hn⟩ := Nat.exists_eq_succ_of_ne_zero (Nat.pos_iff_ne_zero.mp this)
      rw [hn] at h
      simp at h

/-! ## A stopped Worker has a cancelled context -/

theorem stoppedCancelled_new : StoppedCancelled NewDiscoverPool := by
  intro a w h
  simp [NewDiscoverPool] at h

theorem stoppedCancelled_spawn {d : DiscoverPool} (a : Nat) (h : StoppedCancelled d) :
    StoppedCancelled (d.spawn a) := h

theorem stoppedCancelled_add {d : DiscoverPool} (dis : Discover)
    (h : StoppedCancelled d) : StoppedCancelled (d.AddDiscover dis) := by
  unfold DiscoverPool.AddDiscover
  cases dis.GetComponent with
  | none => exact h
  | some component =>
    simp only
    cases d.discoverWorker.lookup (registryKey component.Namespace component.Name) with
    | none =>
      intro b w hb hs
      rcases workers_append_some hb with h1 | ⟨_, h2⟩
      · exact h b w h1 hs
      · rw [h2] at hs
        simp [DiscoverPool.newWorker] at hs
    | some a =>
      simp only
      cases ha : d.workers[a]? with
      | none => exact h
      | some olddis =>
        simp only
        have key : StoppedCancelled
            { d with workers := d.workers.set a (olddis.UpdateDiscover dis) } := by
          intro b w hb hs
          rcases workers_set_some hb with h1 | ⟨_, h2⟩
          · exact h b w h1 hs
          · have := h a olddis ha (by rw [h2] at hs; exact hs)
            rw [h2]
            exact this
        split
        · exact stoppedCancelled_spawn a key
        · exact key

theorem stoppedCancelled_stopAndDelete {d : DiscoverPool} (key : String)
    (h : StoppedCancelled d) : StoppedCancelled (d.stopAndDelete key) := by
  unfold DiscoverPool.stopAndDelete
  cases d.discoverWorker.lookup key with
  | none => exact h
  | some a =>
    intro b w hb hs
    rcases workers_modify_some hb with h1 | ⟨_, w0, _, h2⟩
    · exact h b w h1 hs
    · rw [h2]
      simp [DiscoverPool.workerCtxDone, Worker.Stop]

theorem step_ctxDone (d : DiscoverPool) (l : Loop) (msgs : List ThirdComponent) :
    (Worker.Start.step d l msgs).1.ctxDone = d.ctxDone := by
  unfold Worker.Start.step
  cases l.pc with
  | start => rfl
  | discover => rfl
  | check =>
    simp only
    cases d.workers[l.worker]? with
    | none => rfl
    | some w => simp only; split <;> rfl
  | exited => rfl

theorem stoppedCancelled_stepLoop {d : DiscoverPool} (i : Nat) (msgs : List ThirdComponent)
    (h : StoppedCancelled d) : StoppedCancelled (d.stepLoop i msgs) := by
  unfold DiscoverPool.stepLoop
  cases d.loops[i]? with
  | none => exact h
  | some l =>
    simp only
    intro b w hb hs
    show ((Worker.Start.step d l msgs).1.ctxDone || w.cancelled) = true
    rw [step_ctxDone]
    simp only at hb
    unfold Worker.Start.step at hb
    cases hpc : l.pc with
    | start =>
      rw [hpc] at hb
      rcases workers_modify_some hb with h1 | ⟨_, w0, _, h2⟩
      · exact h b w h1 hs
      · rw [h2] at hs
        simp at hs
    | discover =>
      rw [hpc] at hb
      exact h b w hb hs
    | check =>
      rw [hpc] at hb
      simp only at hb
      cases hw : d.workers[l.worker]? with
      | none =>
        rw [hw] at hb
        exact h b w hb hs
      | some w1 =>
        rw [hw] at hb
        simp only at hb
        by_cases hdone : d.workerCtxDone w1 = true
        · rw [if_pos hdone] at hb
          rcases workers_modify_some hb with h1 | ⟨_, w0, hw0, h2⟩
          · exact h b w h1 hs
          · rw [hw] at hw0
            cases hw0
            rw [h2]
            exact hdone
        · rw [if_neg hdone] at hb
          exact h b w hb hs
    | exited =>
      rw [hpc] at hb
      exact h b w hb hs

theorem stoppedCancelled_receive {σ : Type} {d : DiscoverPool} (r : Reconciler σ) (st : σ)
    (h : StoppedCancelled d) : StoppedCancelled (d.receive r st).pool := by
  unfold DiscoverPool.receive
  cases hc : d.updateChan with
  | nil => exact h
  | cons component rest =>
    simp only
    have h1 : StoppedCancelled { d with updateChan := rest } := h
    unfold DiscoverPool.reconcile
    simp only
    split
    · split
      · split
        · exact stoppedCancelled_stopAndDelete _ h1
        · exact h1
      · exact h1
    · exact h1

theorem stoppedCancelled_step {d d1 : DiscoverPool} (hs : Step d d1)
    (h : StoppedCancelled d) : StoppedCancelled d1 := by
  cases hs with
  | add _ dis => exact stoppedCancelled_add dis h
  | remove _ component => exact stoppedCancelled_stopAndDelete _ h
  | removeByName _ req => exact stoppedCancelled_stopAndDelete _ h
  | cancel =>
    intro b w _ _
    simp [DiscoverPool.workerCtxDone]
  | loop _ i msgs hcap => exact stoppedCancelled_stepLoop i msgs h
  | receive _ r st => exact stoppedCancelled_receive r st h

theorem stoppedCancelled_reachable {d : DiscoverPool} (h : Reachable d) :
    StoppedCancelled d := by
  induction h with
  | init => exact stoppedCancelled_new
  | step _ hs ih => exact stoppedCancelled_step hs ih

/-! ## Removal -/

theorem stopAndDelete_lookup (d : DiscoverPool) (key : String) :
    (d.stopAndDelete key).discoverWorker.lookup key = none := by
  unfold DiscoverPool.stopAndDelete
  cases h : d.discoverWorker.lookup key with
  | none => exact h
  | some a => exact AList.lookup_erase key d.discoverWorker

theorem stopAndDelete_lookup_ne (d : DiscoverPool) {key k : String} (hk : k ≠ key) :
    (d.stopAndDelete key).discoverWorker.lookup k = d.discoverWorker.lookup k := by
  unfold DiscoverPool.stopAndDelete
  cases d.discoverWorker.lookup key with
  | none => rfl
  | some a => exact AList.lookup_erase_ne hk

theorem stopAndDelete_of_lookup_none {d : DiscoverPool} {key : String}
    (h : d.discoverWorker.lookup key = none) : d.stopAndDelete key = d := by
  unfold DiscoverPool.stopAndDelete
  rw [h]

theorem stopAndDelete_of_lookup_some {d : DiscoverPool} {key : String} {a : Nat}
    (h : d.discoverWorker.lookup key = some a) :
    d.stopAndDelete key =
      { d with
        workers := d.workers.modify Worker.Stop a
        discoverWorker := d.discoverWorker.erase key } := by
  unfold DiscoverPool.stopAndDelete
  rw [h]

theorem getSize_erase {d : DiscoverPool} {key : String} {a : Nat}
    (h : d.discoverWorker.lookup key = some a) :
    (d.stopAndDelete key).GetSize + 1 = d.GetSize := by
  have hmem : key ∈ d.discoverWorker.keys := by
    rw [← AList.mem_keys, ← AList.lookup_isSome, h]
    rfl
  rw [stopAndDelete_of_lookup_some h]
  unfold DiscoverPool.GetSize
  simp only [AList.keys_erase]
  rw [List.length_erase_of_mem hmem]
  have : 0 < d.discoverWorker.keys.length := List.length_pos_of_mem hmem
  omega

/-! ## Registration -/

theorem registered_iff {d : DiscoverPool} {key : String} {a : Nat} {w : Worker} :
    d.registered key = some (a, w) ↔
      d.discoverWorker.lookup key = some a ∧ d.workers[a]? = some w := by
  unfold DiscoverPool.registered
  cases hl : d.discoverWorker.lookup key with
  | none => simp
  | some b =>
    simp only
    constructor
    · intro h
      cases hw : d.workers[b]? with
      | none =>
        rw [hw] at h
        simp at h
      | some w1 =>
        rw [hw] at h
        simp only [Option.map_some', Option.some.injEq, Prod.mk.injEq] at h
        obtain ⟨h1, h2⟩ := h
        subst h1
        subst h2
        exact ⟨rfl, hw⟩
    · rintro ⟨hb, h2⟩
      have hb1 : b = a := Option.some.inj hb
      subst hb1
      rw [h2]
      rfl

theorem addDiscover_existing {d : DiscoverPool} {dis : Discover} {c : ThirdComponent}
    {a : Nat} {w : Worker} (hdis : dis.GetComponent = some c)
    (hl : d.discoverWorker.lookup (registryKey c.Namespace c.Name) = some a)
    (hw : d.workers[a]? = some w) :
    d.AddDiscover dis =
      if w.IsStop then
        ({ d with workers := d.workers.set a (w.UpdateDiscover dis) } : DiscoverPool).spawn a
      else { d with workers := d.workers.set a (w.UpdateDiscover dis) } := by
  unfold DiscoverPool.AddDiscover
  rw [hdis]
  simp only
  rw [hl]
  simp only
  rw [hw]
  rfl

theorem addDiscover_fresh {d : DiscoverPool} {dis : Discover} {c : ThirdComponent}
    (hdis : dis.GetComponent = some c)
    (hl : d.discoverWorker.lookup (registryKey c.Namespace c.Name) = none) :
    d.AddDiscover dis =
      { d with
        workers := d.workers ++ [d.newWorker dis]
        loops := d.loops ++ [{ worker := d.workers.length, pc := Pc.start, calls := 0 }]
        discoverWorker :=
          d.discoverWorker.insert (registryKey c.Namespace c.Name) d.workers.length } := by
  unfold DiscoverPool.AddDiscover
  rw [hdis]
  simp only
  rw [hl]
  rfl

/-! ## The registry of a reachable pool -/

theorem wellFormed_new : WellFormed NewDiscoverPool := by
  intro k a h
  simp [NewDiscoverPool] at h

theorem wellFormed_of_eq {d d1 : DiscoverPool} (h : WellFormed d)
    (hr : d1.discoverWorker = d.discoverWorker)
    (hlen : d1.workers.length = d.workers.length) : WellFormed d1 := by
  intro k a hk
  rw [hr] at hk
  rw [hr, hlen]
  exact h k a hk

theorem wellFormed_add {d : DiscoverPool} (dis : Discover) (h : WellFormed d) :
    WellFormed (d.AddDiscover dis) := by
  cases hdis : dis.GetComponent with
  | none =>
    unfold DiscoverPool.AddDiscover
    rw [hdis]
    exact h
  | some c =>
    cases hl : d.discoverWorker.lookup (registryKey c.Namespace c.Name) with
    | none =>
      rw [addDiscover_fresh hdis hl]
      intro k a hk
      simp only at hk ⊢
      rw [List.length_append]
      by_cases hkey : k = registryKey c.Namespace c.Name
      · subst hkey
        rw [AList.lookup_insert] at hk
        have ha : d.workers.length = a := Option.some.inj hk
        subst ha
        refine ⟨by simp, ?_⟩
        intro k1 hk1
        by_cases hk1key : k1 = registryKey c.Namespace c.Name
        · exact hk1key
        · rw [AList.lookup_insert_ne hk1key] at hk1
          exact absurd (h k1 _ hk1).1 (Nat.lt_irrefl _)
      · rw [AList.lookup_insert_ne hkey] at hk
        refine ⟨Nat.lt_of_lt_of_le (h k a hk).1 (Nat.le_add_right _ _), ?_⟩
        intro k1 hk1
        by_cases hk1key : k1 = registryKey c.Namespace c.Name
        · subst hk1key
          rw [AList.lookup_insert] at hk1
          have ha : d.workers.length = a := Option.some.inj hk1
          subst ha
          exact absurd (h k _ hk).1 (Nat.lt_irrefl _)
        · rw [AList.lookup_insert_ne hk1key] at hk1
          exact (h k a hk).2 k1 hk1
    | some a =>
      cases hw : d.workers[a]? with
      | none =>
        unfold DiscoverPool.AddDiscover
        rw [hdis]
        simp only
        rw [hl]
        simp only
        rw [hw]
        exact h
      | some w =>
        rw [addDiscover_existing hdis hl hw]
        split
        · exact wellFormed_of_eq h rfl (by simp [DiscoverPool.spawn])
        · exact wellFormed_of_eq h rfl (by simp)

theorem wellFormed_stopAndDelete {d : DiscoverPool} (key : String) (h : WellFormed d) :
    WellFormed (d.stopAndDelete key) := by
  cases hl : d.discoverWorker.lookup key with
  | none =>
    rw [stopAndDelete_of_lookup_none hl]
    exact h
  | some a =>
    have hlen : (d.stopAndDelete key).workers.length = d.workers.length := by
      rw [stopAndDelete_of_lookup_some hl]
      simp
    have hlook : ∀ (k : String) (b : Nat),
        (d.stopAndDelete key).discoverWorker.lookup k = some b →
        d.discoverWorker.lookup k = some b := by
      intro k b hk
      by_cases hkey : k = key
      · subst hkey
        rw [stopAndDelete_lookup] at hk
        simp at hk
      · rwa [stopAndDelete_lookup_ne d hkey] at hk
    intro k b hk
    rw [hlen]
    exact ⟨(h k b (hlook k b hk)).1, fun k1 hk1 => (h k b (hlook k b hk)).2 k1 (hlook k1 b hk1)⟩

theorem stepLoop_registry (d : DiscoverPool) (i : Nat) (msgs : List ThirdComponent) :
    (d.stepLoop i msgs).discoverWorker = d.discoverWorker ∧
    (d.stepLoop i msgs).workers.length = d.workers.length := by
  unfold DiscoverPool.stepLoop
  cases d.loops[i]? with
  | none => exact ⟨rfl, rfl⟩
  | some l =>
    simp only
    unfold Worker.Start.step
    cases l.pc with
    | start => simp
    | discover => simp
    | check =>
      simp only
      cases d.workers[l.worker]? with
      | none => simp
      | some w =>
        simp only
        split <;> simp
    | exited => simp

theorem wellFormed_receive {σ : Type} {d : DiscoverPool} (r : Reconciler σ) (st : σ)
    (h : WellFormed d) : WellFormed (d.receive r st).pool := by
  unfold DiscoverPool.receive
  cases hc : d.updateChan with
  | nil => exact h
  | cons component rest =>
    simp only
    have h1 : WellFormed { d with updateChan := rest } := h
    unfold DiscoverPool.reconcile
    simp only
    split
    · split
      · split
        · exact wellFormed_stopAndDelete _ h1
        · exact h1
      · exact h1
    · exact h1

theorem wellFormed_step {d d1 : DiscoverPool} (hs : Step d d1) (h : WellFormed d) :
    WellFormed d1 := by
  cases hs with
  | add _ dis => exact wellFormed_add dis h
  | remove _ component => exact wellFormed_stopAndDelete _ h
  | removeByName _ req => exact wellFormed_stopAndDelete _ h
  | cancel => exact h
  | loop _ i msgs hcap =>
    exact wellFormed_of_eq h (stepLoop_registry d i msgs).1 (stepLoop_registry d i msgs).2
  | receive _ r st => exact wellFormed_receive r st h

theorem wellFormed_reachable {d : DiscoverPool} (h : Reachable d) : WellFormed d := by
  induction h with
  | init => exact wellFormed_new
  | step _ hs ih => exact wellFormed_step hs ih

/-! ## The registry key -/

/-- C1 (fails on the code): the entities `a/bc` and `ab/c` differ in namespace and in
name, yet `Namespace + Name` gives both the key `abc`; registering both leaves one
registry slot, and removing the second removes the Worker of the first. -/
theorem registryKey_collision :
    compX.Namespace ≠ compY.Namespace ∧ compX.Name ≠ compY.Name ∧
    registryKey compX.Namespace compX.Name = registryKey compY.Namespace compY.Name ∧
    ((NewDiscoverPool.AddDiscover disX).AddDiscover disY).GetSize = 1 ∧
    ((NewDiscoverPool.AddDiscover disX).AddDiscover disY).workers =
      [{ discover := disY, cancelled := false, stoped := false }] ∧
    ((NewDiscoverPool.AddDiscover disX).RemoveDiscover compY).GetSize = 0 := by
  decide

/-! ## Registration of a discoverer without a component -/

/-- C9: when `GetComponent()` returns nil, `AddDiscover` returns the pool it was given:
registry, Workers, their discoverers, size and run loops are all unchanged. -/
theorem addDiscover_nil_component (d : DiscoverPool) (dis : Discover)
    (h : dis.GetComponent = none) :
    d.AddDiscover dis = d ∧ (d.AddDiscover dis).GetSize = d.GetSize ∧
    (d.AddDiscover dis).discoverWorker = d.discoverWorker ∧
    (d.AddDiscover dis).workers = d.workers ∧ (d.AddDiscover dis).loops = d.loops := by
  have h0 : d.AddDiscover dis = d := by
    unfold DiscoverPool.AddDiscover
    rw [h]
  rw [h0]
  exact ⟨rfl, rfl, rfl, rfl, rfl⟩

theorem addDiscover_nil_component_witness :
    disNil.GetComponent = none ∧ poolTwo.AddDiscover disNil = poolTwo :=
  ⟨rfl, (addDiscover_nil_component poolTwo disNil rfl).1⟩

/-! ## Removal of a key -/

/-- C8: `RemoveDiscover`, and `RemoveDiscoverByName` with the same namespace and name,
leave the key absent and every other key with the address it had; when the key was
registered at address `a`, `cancel` is called on that Worker, no other Worker of the
heap changes and `GetSize` goes down by one; when it was not registered the pool is
unchanged.  In a reachable pool no two keys share a Worker, so every other key keeps
its Worker as it was. -/
theorem removeDiscover_frame (d : DiscoverPool) (component : ThirdComponent) :
    d.RemoveDiscoverByName
        { Namespace := component.Namespace, Name := component.Name } =
      d.RemoveDiscover component ∧
    (d.RemoveDiscover component).discoverWorker.lookup
        (registryKey component.Namespace component.Name) = none ∧
    (∀ k : String, k ≠ registryKey component.Namespace component.Name →
      (d.RemoveDiscover component).discoverWorker.lookup k = d.discoverWorker.lookup k) ∧
    (∀ a : Nat,
      d.discoverWorker.lookup (registryKey component.Namespace component.Name) = some a →
      (d.RemoveDiscover component).workers[a]? = (d.workers[a]?).map Worker.Stop ∧
      (∀ b : Nat, b ≠ a → (d.RemoveDiscover component).workers[b]? = d.workers[b]?) ∧
      (d.RemoveDiscover component).GetSize + 1 = d.GetSize) ∧
    (d.discoverWorker.lookup (registryKey component.Namespace component.Name) = none →
      d.RemoveDiscover component = d ∧
      (d.RemoveDiscover component).GetSize = d.GetSize) ∧
    (Reachable d → ∀ k : String, k ≠ registryKey component.Namespace component.Name →
      (d.RemoveDiscover component).registered k = d.registered k) := by
  refine ⟨rfl, stopAndDelete_lookup d _, fun k hk => stopAndDelete_lookup_ne d hk, ?_, ?_,
    ?_⟩
  rotate_right
  · intro hr k hk
    unfold DiscoverPool.registered
    have hsame : (d.RemoveDiscover component).discoverWorker.lookup k =
        d.discoverWorker.lookup k := stopAndDelete_lookup_ne d hk
    rw [hsame]
    cases hb : d.discoverWorker.lookup k with
    | none => rfl
    | some b =>
      simp only
      cases ha : d.discoverWorker.lookup
          (registryKey component.Namespace component.Name) with
      | none =>
        have h0 : d.RemoveDiscover component = d := stopAndDelete_of_lookup_none ha
        rw [h0]
      | some a =>
        have hne : a ≠ b := by
          intro hab
          subst hab
          exact hk ((wellFormed_reachable hr _ a ha).2 k hb)
        unfold DiscoverPool.RemoveDiscover
        rw [stopAndDelete_of_lookup_some ha]
        simp only
        rw [List.getElem?_modify_ne _ _ hne]
  · intro a ha
    refine ⟨?_, ?_, getSize_erase ha⟩
    · unfold DiscoverPool.RemoveDiscover
      rw [stopAndDelete_of_lookup_some ha]
      simp
    · intro b hb
      unfold DiscoverPool.RemoveDiscover
      rw [stopAndDelete_of_lookup_some ha]
      exact List.getElem?_modify_ne _ _ (Ne.symm hb)
  · intro hn
    have h0 : d.RemoveDiscover component = d := stopAndDelete_of_lookup_none hn
    rw [h0]
    exact ⟨rfl, rfl⟩

theorem removeDiscover_frame_witness :
    poolTwo.discoverWorker.lookup (registryKey compA.Namespace compA.Name) = some 0 ∧
    (poolTwo.RemoveDiscover compA).discoverWorker.lookup
        (registryKey compA.Namespace compA.Name) = none ∧
    (poolTwo.RemoveDiscover compA).workers[0]? = (poolTwo.workers[0]?).map Worker.Stop ∧
    (poolTwo.RemoveDiscover compA).GetSize + 1 = poolTwo.GetSize :=
  ⟨by decide, (removeDiscover_frame poolTwo compA).2.1,
    ((removeDiscover_frame poolTwo compA).2.2.2.1 0 (by decide)).1,
    ((removeDiscover_frame poolTwo compA).2.2.2.1 0 (by decide)).2.2⟩

/-! ## The reconciliation step -/

theorem reconcile_same {σ : Type} (r : Reconciler σ) (st : σ) (d : DiscoverPool)
    (c : ThirdComponent)
    (h : c.Endpoints = ((r.get st c.Namespace c.Name).getD ThirdComponent.zero).Endpoints) :
    d.reconcile r st c = { store := st, pool := d, writes := [] } := by
  unfold DiscoverPool.reconcile
  simp only
  rw [if_neg (not_not.mpr h)]

theorem reconcile_ok {σ : Type} (r : Reconciler σ) (st st1 : σ) (d : DiscoverPool)
    (c : ThirdComponent)
    (h : c.Endpoints ≠ ((r.get st c.Namespace c.Name).getD ThirdComponent.zero).Endpoints)
    (hu : r.updateStatus st c = (st1, none)) :
    d.reconcile r st c = { store := st1, pool := d, writes := [(c, none)] } := by
  unfold DiscoverPool.reconcile
  simp only
  rw [if_pos h, hu]

theorem reconcile_err {σ : Type} (r : Reconciler σ) (st st1 : σ) (d : DiscoverPool)
    (c : ThirdComponent) (e : StatusError)
    (h : c.Endpoints ≠ ((r.get st c.Namespace c.Name).getD ThirdComponent.zero).Endpoints)
    (hu : r.updateStatus st c = (st1, some e)) :
    d.reconcile r st c =
      { store := st1
        pool := if e.IsNotFound then d.RemoveDiscover c else d
        writes := [(c, some e)] } := by
  unfold DiscoverPool.reconcile
  simp only
  rw [if_pos h, hu]
  simp only
  split <;> rfl

theorem receive_cons {σ : Type} (r : Reconciler σ) (st : σ) {d : DiscoverPool}
    {c : ThirdComponent} {rest : List ThirdComponent} (hc : d.updateChan = c :: rest) :
    d.receive r st = DiscoverPool.reconcile r st { d with updateChan := rest } c := by
  unfold DiscoverPool.receive
  rw [hc]

/-- C6: when the status of the message taken from the channel is not deep-equal to the
status fetched from the store, the step calls `updateStatus` once, with the incoming
component, and keeps the store that call returns. -/
theorem receive_writes_changed {σ : Type} (r : Reconciler σ) (st : σ) (d : DiscoverPool)
    (component : ThirdComponent) (rest : List ThirdComponent)
    (hc : d.updateChan = component :: rest)
    (h : component.Endpoints ≠
      ((r.get st component.Namespace component.Name).getD ThirdComponent.zero).Endpoints) :
    (d.receive r st).writes = [(component, (r.updateStatus st component).2)] ∧
    (d.receive r st).store = (r.updateStatus st component).1 := by
  rw [receive_cons r st hc]
  rcases hu : r.updateStatus st component with ⟨st1, e⟩
  cases e with
  | none => rw [reconcile_ok r st st1 _ component h hu]; exact ⟨rfl, rfl⟩
  | some e => rw [reconcile_err r st st1 _ component e h hu]; exact ⟨rfl, rfl⟩

theorem receive_writes_changed_witness :
    poolOneMessage.updateChan = [compA] ∧
    compA.Endpoints ≠
      ((memoryStore.get none compA.Namespace compA.Name).getD ThirdComponent.zero).Endpoints ∧
    (poolOneMessage.receive memoryStore none).writes = [(compA, none)] :=
  ⟨rfl, by decide,
    (receive_writes_changed memoryStore none poolOneMessage compA [] rfl (by decide)).1⟩

/-- C7: when the step attempts the write and `updateStatus` returns a "not found"
error, the step ends with `RemoveDiscover`: the key of the entity is absent from the
registry, `cancel` was called on the Worker it had, and the other keys are untouched.
When `updateStatus` returns any other error, registry, Workers and run loops are
unchanged. -/
theorem receive_not_found {σ : Type} (r : Reconciler σ) (st : σ) (d : DiscoverPool)
    (component : ThirdComponent) (rest : List ThirdComponent)
    (hc : d.updateChan = component :: rest)
    (h : component.Endpoints ≠
      ((r.get st component.Namespace component.Name).getD ThirdComponent.zero).Endpoints) :
    ((r.updateStatus st component).2 = some StatusError.notFound →
      (d.receive r st).pool.discoverWorker.lookup
          (registryKey component.Namespace component.Name) = none ∧
      (∀ a : Nat,
        d.discoverWorker.lookup (registryKey component.Namespace component.Name) = some a →
        (d.receive r st).pool.workers[a]? = (d.workers[a]?).map Worker.Stop) ∧
      (∀ k : String, k ≠ registryKey component.Namespace component.Name →
        (d.receive r st).pool.discoverWorker.lookup k = d.discoverWorker.lookup k)) ∧
    (∀ e : StatusError, (r.updateStatus st component).2 = some e → e.IsNotFound = false →
      (d.receive r st).pool.discoverWorker = d.discoverWorker ∧
      (d.receive r st).pool.workers = d.workers ∧
      (d.receive r st).pool.loops = d.loops) := by
  rw [receive_cons r st hc]
  rcases hu : r.updateStatus st component with ⟨st1, e⟩
  constructor
  · intro he
    simp only at he
    subst he
    rw [reconcile_err r st st1 _ component _ h hu]
    simp only [StatusError.IsNotFound, if_true]
    refine ⟨stopAndDelete_lookup _ _, ?_, fun k hk => stopAndDelete_lookup_ne _ hk⟩
    intro a ha
    have ha1 : ({ d with updateChan := rest } : DiscoverPool).discoverWorker.lookup
        (registryKey component.Namespace component.Name) = some a := ha
    unfold DiscoverPool.RemoveDiscover
    rw [stopAndDelete_of_lookup_some ha1]
    simp
  · intro e1 he hnf
    simp only at he
    subst he
    rw [reconcile_err r st st1 _ component _ h hu]
    simp only [hnf]
    exact ⟨rfl, rfl, rfl⟩

theorem receive_not_found_witness :
    poolTwoPending.updateChan = [compBEmpty] ∧
    compBEmpty.Endpoints ≠
      ((deletedStore.get () compBEmpty.Namespace compBEmpty.Name).getD
        ThirdComponent.zero).Endpoints ∧
    (deletedStore.updateStatus () compBEmpty).2 = some StatusError.notFound ∧
    poolTwoPending.discoverWorker.lookup
        (registryKey compBEmpty.Namespace compBEmpty.Name) = some 1 ∧
    (poolTwoPending.receive deletedStore ()).pool.discoverWorker.lookup
        (registryKey compBEmpty.Namespace compBEmpty.Name) = none :=
  ⟨rfl, by decide, rfl, by decide,
    ((receive_not_found deletedStore () poolTwoPending compBEmpty [] rfl
      (by decide)).1 rfl).1⟩

/-- C5 (fails on the code): `failingStore` persists every successful write, since it
has none; two consecutive messages of `compA` with equal status both differ from the
fetched status, and `updateStatus` is called for each of them. -/
theorem receive_writes_twice :
    PersistsWrites failingStore ∧
    poolTwoMessages.updateChan = [compA, compA] ∧
    (poolTwoMessages.receive failingStore ()).writes = [(compA, some StatusError.other)] ∧
    ((poolTwoMessages.receive failingStore ()).pool.receive failingStore
      (poolTwoMessages.receive failingStore ()).store).writes =
        [(compA, some StatusError.other)] := by
  refine ⟨?_, rfl, by decide, by decide⟩
  intro st st1 c h
  simp [failingStore] at h

/-- C5 (amended): a message whose status is deep-equal to the status fetched from the
store causes no call of `updateStatus` and changes neither the store nor the pool,
apart from leaving the channel.  Of two consecutive messages for the same entity with
equal status, against a store that persists successful writes, `updateStatus` is
called at most once provided the call made for the first message, if any, returned no
error. -/
theorem receive_deduplicates {σ : Type} (r : Reconciler σ) (st : σ) (d : DiscoverPool)
    (component : ThirdComponent) (rest : List ThirdComponent)
    (hc : d.updateChan = component :: rest) :
    (component.Endpoints =
        ((r.get st component.Namespace component.Name).getD ThirdComponent.zero).Endpoints →
      (d.receive r st).writes = [] ∧ (d.receive r st).store = st ∧
      (d.receive r st).pool = { d with updateChan := rest }) ∧
    (∀ (c2 : ThirdComponent) (rest2 : List ThirdComponent), rest = c2 :: rest2 →
      PersistsWrites r → c2.Namespace = component.Namespace → c2.Name = component.Name →
      c2.Endpoints = component.Endpoints →
      (∀ w ∈ (d.receive r st).writes, w.2 = none) →
      (d.receive r st).writes.length +
        ((d.receive r st).pool.receive r (d.receive r st).store).writes.length ≤ 1) := by
  rw [receive_cons r st hc]
  constructor
  · intro h
    rw [reconcile_same r st _ component h]
    exact ⟨rfl, rfl, rfl⟩
  · intro c2 rest2 hrest hp hns hname hend hw
    by_cases h : component.Endpoints =
        ((r.get st component.Namespace component.Name).getD ThirdComponent.zero).Endpoints
    · rw [reconcile_same r st _ component h] at hw ⊢
      simp only
      have hc2 : ({ d with updateChan := rest } : DiscoverPool).updateChan = c2 :: rest2 :=
        hrest
      rw [receive_cons r st hc2]
      rw [reconcile_same r st _ c2 (by rw [hns, hname, hend]; exact h)]
      simp
    · rcases hu : r.updateStatus st component with ⟨st1, e⟩
      cases e with
      | some e =>
        rw [reconcile_err r st st1 _ component e h hu] at hw
        have := hw (component, some e) (by simp)
        simp at this
      | none =>
        rw [reconcile_ok r st st1 _ component h hu]
        simp only
        have hc2 : ({ d with updateChan := rest } : DiscoverPool).updateChan = c2 :: rest2 :=
          hrest
        rw [receive_cons r st1 hc2]
        have hget := hp st st1 component hu
        have hsame : c2.Endpoints =
            ((r.get st1 c2.Namespace c2.Name).getD ThirdComponent.zero).Endpoints := by
          rw [hns, hname, hend]
          cases hg : r.get st1 component.Namespace component.Name with
          | none => rw [hg] at hget; simp at hget
          | some o =>
            rw [hg] at hget
            simp at hget
            simp [hget]
        rw [reconcile_same r st1 _ c2 hsame]
        simp

theorem receive_deduplicates_witness :
    poolTwoMessages.updateChan = [compA, compA] ∧ PersistsWrites memoryStore ∧
    (poolTwoMessages.receive memoryStore none).writes = [(compA, none)] ∧
    (poolTwoMessages.receive memoryStore none).writes.length +
      ((poolTwoMessages.receive memoryStore none).pool.receive memoryStore
        (poolTwoMessages.receive memoryStore none).store).writes.length ≤ 1 :=
  have hp : PersistsWrites memoryStore := by
    intro st st1 c h
    simp only [memoryStore, Prod.mk.injEq] at h
    simp [memoryStore, h.1]
  ⟨rfl, hp, by decide,
    (receive_deduplicates memoryStore none poolTwoMessages compA [compA] rfl).2
      compA [] rfl hp rfl rfl rfl (by decide)⟩

/-! ## A run loop whose context is cancelled -/

theorem loops_set_self {ls : List Loop} {i : Nat} {l l1 : Loop} (h : ls[i]? = some l) :
    (ls.set i l1)[i]? = some l1 := by
  rw [List.getElem?_set', if_pos rfl, h]
  rfl

theorem loops_set_same {ls : List Loop} {i : Nat} {l : Loop} (h : ls[i]? = some l) :
    ls.set i l = ls := by
  apply List.ext_getElem?
  intro j
  rw [List.getElem?_set']
  by_cases hij : i = j
  · subst hij
    rw [if_pos rfl, h]
    rfl
  · rw [if_neg hij]

theorem cancelledLoop_start {s : DiscoverPool} {i a calls : Nat} (msgs : List ThirdComponent)
    (h : CancelledLoop s i a Pc.start calls) :
    CancelledLoop (s.stepLoop i msgs) i a Pc.discover calls := by
  obtain ⟨hl, w, hw, hdone⟩ := h
  unfold DiscoverPool.stepLoop
  rw [hl]
  simp only [Worker.Start.step]
  refine ⟨loops_set_self hl, { w with stoped := false }, ?_, hdone⟩
  show (s.workers.modify _ a)[a]? = _
  rw [List.getElem?_modify_eq, hw]
  rfl

theorem cancelledLoop_discover {s : DiscoverPool} {i a calls : Nat}
    (msgs : List ThirdComponent) (h : CancelledLoop s i a Pc.discover calls) :
    CancelledLoop (s.stepLoop i msgs) i a Pc.check (calls + 1) := by
  obtain ⟨hl, w, hw, hdone⟩ := h
  unfold DiscoverPool.stepLoop
  rw [hl]
  simp only [Worker.Start.step]
  exact ⟨loops_set_self hl, w, hw, hdone⟩

theorem cancelledLoop_check {s : DiscoverPool} {i a calls : Nat} (msgs : List ThirdComponent)
    (h : CancelledLoop s i a Pc.check calls) :
    CancelledLoop (s.stepLoop i msgs) i a Pc.exited calls ∧
    ((s.stepLoop i msgs).workers[a]?).map Worker.IsStop = some true := by
  obtain ⟨hl, w, hw, hdone⟩ := h
  unfold DiscoverPool.stepLoop
  rw [hl]
  simp only [Worker.Start.step, hw, hdone, if_true]
  have hw1 : (s.workers.modify (fun w => { w with stoped := true }) a)[a]? =
      some { w with stoped := true } := by
    rw [List.getElem?_modify_eq, hw]
    rfl
  refine ⟨⟨loops_set_self hl, { w with stoped := true }, hw1, hdone⟩, ?_⟩
  show Option.map Worker.IsStop (s.workers.modify _ a)[a]? = _
  rw [hw1]
  rfl

theorem stepLoop_exited {s : DiscoverPool} {i a calls : Nat} (msgs : List ThirdComponent)
    (hl : s.loops[i]? = some { worker := a, pc := Pc.exited, calls := calls }) :
    s.stepLoop i msgs = s := by
  unfold DiscoverPool.stepLoop
  rw [hl]
  simp only [Worker.Start.step]
  rw [loops_set_same hl]

theorem runLoop_exited {s : DiscoverPool} {i a calls : Nat} (msgs : List ThirdComponent)
    (hl : s.loops[i]? = some { worker := a, pc := Pc.exited, calls := calls }) (n : Nat) :
    s.runLoop i msgs n = s := by
  induction n with
  | zero => rfl
  | succ n ih =>
    show (s.stepLoop i msgs).runLoop i msgs n = s
    rw [stepLoop_exited msgs hl]
    exact ih

theorem runLoop_add (s : DiscoverPool) (i : Nat) (msgs : List ThirdComponent) (m n : Nat) :
    s.runLoop i msgs (m + n) = (s.runLoop i msgs m).runLoop i msgs n := by
  induction m generalizing s with
  | zero => simp [DiscoverPool.runLoop]
  | succ m ih =>
    rw [Nat.succ_add]
    exact ih (s.stepLoop i msgs)

/-- A freshly created run loop on a Worker whose context is done calls `Discover`
once and exits, leaving the Worker marked stopped. -/
theorem cancelledLoop_runs_once {s : DiscoverPool} {i a : Nat} (msgs : List ThirdComponent)
    (h : CancelledLoop s i a Pc.start 0) (n : Nat) (hn : 3 ≤ n) :
    (s.runLoop i msgs n).loops[i]? = some { worker := a, pc := Pc.exited, calls := 1 } ∧
    ((s.runLoop i msgs n).workers[a]?).map Worker.IsStop = some true := by
  obtain ⟨m, rfl⟩ := Nat.exists_eq_add_of_le hn
  have h3 := cancelledLoop_check msgs (cancelledLoop_discover msgs (cancelledLoop_start msgs h))
  rw [runLoop_add]
  have e3 : s.runLoop i msgs 3 =
      ((s.stepLoop i msgs).stepLoop i msgs).stepLoop i msgs := rfl
  rw [e3, runLoop_exited msgs h3.1.1 m]
  exact ⟨h3.1.1, h3.2⟩

/-! ## Sample executions -/

theorem reachable_poolRunning : Reachable poolRunning :=
  Reachable.step (Reachable.step Reachable.init (Step.add _ disA))
    (Step.loop _ 0 [] (by decide))

theorem reachable_poolCancelled : Reachable poolCancelled :=
  Reachable.step reachable_poolRunning (Step.cancel _)

theorem reachable_poolStopped : Reachable poolStopped :=
  Reachable.step (Reachable.step reachable_poolCancelled (Step.loop _ 0 [] (by decide)))
    (Step.loop _ 0 [] (by decide))

theorem reachable_poolRestartedTwice : Reachable poolRestartedTwice :=
  Reachable.step (Reachable.step reachable_poolStopped (Step.add _ disA)) (Step.add _ disA2)

theorem reachable_poolRacing : Reachable poolRacing :=
  Reachable.step (Reachable.step reachable_poolRestartedTwice (Step.loop _ 1 [] (by decide)))
    (Step.loop _ 2 [] (by decide))

/-! ## Restart of a stopped Worker -/

/-- C10: in a reachable pool a registered Worker that reports `IsStop()` true has a
context that is done; `AddDiscover` for its key starts one run loop on it, and that
loop, run for three statements or more, has called `Discover` exactly once, has
returned, and has left the Worker marked stopped. -/
theorem restart_discovers_once (d : DiscoverPool) (key : String) (a : Nat) (w : Worker)
    (dis : Discover) (c : ThirdComponent) (msgs : List ThirdComponent)
    (hr : Reachable d) (hreg : d.registered key = some (a, w)) (hstop : w.IsStop = true)
    (hdis : dis.GetComponent = some c) (hkey : registryKey c.Namespace c.Name = key) :
    d.workerCtxDone w = true ∧
    (d.AddDiscover dis).loops = d.loops ++ [{ worker := a, pc := Pc.start, calls := 0 }] ∧
    (d.AddDiscover dis).registered key = some (a, w.UpdateDiscover dis) ∧
    (d.AddDiscover dis).workerCtxDone (w.UpdateDiscover dis) = true ∧
    ∀ n : Nat, 3 ≤ n →
      ((d.AddDiscover dis).runLoop d.loops.length msgs n).loops[d.loops.length]? =
        some { worker := a, pc := Pc.exited, calls := 1 } ∧
      (((d.AddDiscover dis).runLoop d.loops.length msgs n).workers[a]?).map Worker.IsStop =
        some true := by
  obtain ⟨hl, hw⟩ := registered_iff.mp hreg
  subst hkey
  have hdone : d.workerCtxDone w = true := stoppedCancelled_reachable hr a w hw hstop
  have hadd := addDiscover_existing hdis hl hw
  rw [hstop, if_pos rfl] at hadd
  have hlt : a < d.workers.length := (List.getElem?_eq_some_iff.mp hw).1
  have hw1 : (d.AddDiscover dis).workers[a]? = some (w.UpdateDiscover dis) := by
    rw [hadd]
    show (d.workers.set a (w.UpdateDiscover dis))[a]? = _
    rw [List.getElem?_set, if_pos rfl, if_pos hlt]
  have hloops : (d.AddDiscover dis).loops =
      d.loops ++ [{ worker := a, pc := Pc.start, calls := 0 }] := by
    rw [hadd]
    rfl
  have hl1 : (d.AddDiscover dis).discoverWorker.lookup (registryKey c.Namespace c.Name) =
      some a := by
    rw [hadd]
    exact hl
  have hdone1 : (d.AddDiscover dis).workerCtxDone (w.UpdateDiscover dis) = true := by
    rw [hadd]
    exact hdone
  refine ⟨hdone, hloops, registered_iff.mpr ⟨hl1, hw1⟩, hdone1, ?_⟩
  intro n hn
  apply cancelledLoop_runs_once msgs _ n hn
  refine ⟨?_, w.UpdateDiscover dis, hw1, hdone1⟩
  rw [hloops]
  exact List.getElem?_concat_length _ _

theorem restart_discovers_once_witness :
    Reachable poolStopped ∧
    poolStopped.registered (registryKey compA.Namespace compA.Name) =
      some (0, { discover := disA, cancelled := false, stoped := true }) ∧
    ((poolStopped.AddDiscover disA2).runLoop 1 [] 3).loops[1]? =
      some { worker := 0, pc := Pc.exited, calls := 1 } :=
  ⟨reachable_poolStopped, by decide,
    ((restart_discovers_once poolStopped (registryKey compA.Namespace compA.Name) 0
      { discover := disA, cancelled := false, stoped := true } disA2 compA []
      reachable_poolStopped (by decide) rfl rfl rfl).2.2.2.2 3 (Nat.le_refl 3)).1⟩

/-! ## Two run loops for one key -/

/-- C2 (fails on the code): from `NewDiscoverPool`, register `compA`, let its loop
start, cancel the pool's context and let the loop exit; two calls of `AddDiscover`
for `compA` then each see `IsStop()` true, because `w.stoped = false` is only run by
the new goroutine, and each start a run loop.  Both loops are active on the Worker
registered under the key of `compA`, and both reach the call of `Discover`. -/
theorem two_loops_same_key :
    Reachable poolRestartedTwice ∧ Reachable poolRacing ∧
    poolRestartedTwice.discoverWorker.lookup (registryKey compA.Namespace compA.Name) =
      some 0 ∧
    poolRestartedTwice.activeLoops 0 =
      [{ worker := 0, pc := Pc.start, calls := 0 }, { worker := 0, pc := Pc.start, calls := 0 }] ∧
    poolRacing.discoverWorker.lookup (registryKey compA.Namespace compA.Name) = some 0 ∧
    poolRacing.activeLoops 0 =
      [{ worker := 0, pc := Pc.discover, calls := 0 },
       { worker := 0, pc := Pc.discover, calls := 0 }] :=
  ⟨reachable_poolRestartedTwice, reachable_poolRacing, by decide, by decide, by decide,
    by decide⟩

/-- C3 (fails on the code): in the reachable pool `poolStopped` the Worker of `compA`
is registered and marked stopped.  `AddDiscover(disA)` starts a run loop on it, and
`AddDiscover(disA2)`, called next for the same key, starts a second one: the flag
`stoped` is still true.  The rest of the claim holds there: one Worker, whose
discoverer is `disA2`, and the same size. -/
theorem second_add_spawns_loop :
    Reachable poolStopped ∧
    poolStopped.registered (registryKey compA.Namespace compA.Name) =
      some (0, { discover := disA, cancelled := false, stoped := true }) ∧
    (poolStopped.AddDiscover disA).loops =
      poolStopped.loops ++ [{ worker := 0, pc := Pc.start, calls := 0 }] ∧
    ((poolStopped.AddDiscover disA).AddDiscover disA2).loops =
      (poolStopped.AddDiscover disA).loops ++ [{ worker := 0, pc := Pc.start, calls := 0 }] ∧
    ((poolStopped.AddDiscover disA).AddDiscover disA2).registered
        (registryKey compA.Namespace compA.Name) =
      some (0, { discover := disA2, cancelled := false, stoped := true }) ∧
    ((poolStopped.AddDiscover disA).AddDiscover disA2).GetSize =
      (poolStopped.AddDiscover disA).GetSize :=
  ⟨reachable_poolStopped, by decide, by decide, by decide, by decide, by decide⟩

/-! ## Removal followed by registration -/

theorem remove_add_eq {d : DiscoverPool} {component c : ThirdComponent} {dis : Discover}
    {a : Nat} (hdis : dis.GetComponent = some c)
    (hkey : registryKey c.Namespace c.Name = registryKey component.Namespace component.Name)
    (hl : d.discoverWorker.lookup (registryKey component.Namespace component.Name) = some a) :
    (d.RemoveDiscover component).AddDiscover dis =
      { d with
        workers := d.workers.modify Worker.Stop a ++ [d.newWorker dis]
        loops := d.loops ++ [{ worker := d.workers.length, pc := Pc.start, calls := 0 }]
        discoverWorker :=
          (d.discoverWorker.erase (registryKey component.Namespace component.Name)).insert
            (registryKey component.Namespace component.Name) d.workers.length } := by
  have hnone : (d.RemoveDiscover component).discoverWorker.lookup
      (registryKey c.Namespace c.Name) = none := by
    rw [hkey]
    exact stopAndDelete_lookup d _
  rw [addDiscover_fresh hdis hnone, hkey]
  unfold DiscoverPool.RemoveDiscover
  rw [stopAndDelete_of_lookup_some hl]
  simp only [List.length_modify]
  rfl

/-- C4 (fails on the code): in `poolRunning` the Worker of `compA` is registered and
its loop is running; after `RemoveDiscover` and `AddDiscover` for the same key the
stale Worker at address 0 has been cancelled but `IsStop()` still returns false.  In
`poolCancelled`, whose context is done, the Worker created by the same two calls has
a context that is done from the start. -/
theorem stale_worker_not_stopped :
    Reachable poolRunning ∧
    poolRunning.registered (registryKey compA.Namespace compA.Name) =
      some (0, { discover := disA, cancelled := false, stoped := false }) ∧
    ((poolRunning.RemoveDiscover compA).AddDiscover disA2).workers[0]? =
      some { discover := disA, cancelled := true, stoped := false } ∧
    (((poolRunning.RemoveDiscover compA).AddDiscover disA2).workers[0]?).map Worker.IsStop =
      some false ∧
    Reachable poolCancelled ∧
    ((poolCancelled.RemoveDiscover compA).AddDiscover disA2).registered
        (registryKey compA.Namespace compA.Name) =
      some (1, { discover := disA2, cancelled := false, stoped := false }) ∧
    ((poolCancelled.RemoveDiscover compA).AddDiscover disA2).workerCtxDone
      { discover := disA2, cancelled := false, stoped := false } = true :=
  ⟨reachable_poolRunning, by decide, by decide, by decide, reachable_poolCancelled,
    by decide, by decide⟩

/-- C4 (amended): when a Worker `w` is registered under a key at address `a`,
`RemoveDiscover` for the key followed by `AddDiscover` with a discoverer of the same
key registers, at a new address, a new Worker holding that discoverer, on which
`cancel` has not been called and which is not marked stopped, and starts a run loop
on it; the context of the new Worker is done exactly when the pool's context is.  The
stale Worker `w` has been cancelled, so its context is done; its flag `stoped` is the
one it had before, and it becomes true when a run loop of `w` reaches the check of
`ctx.Done()`, where that loop exits. -/
theorem remove_then_add (d : DiscoverPool) (component c : ThirdComponent) (dis : Discover)
    (a : Nat) (w : Worker)
    (hreg : d.registered (registryKey component.Namespace component.Name) = some (a, w))
    (hdis : dis.GetComponent = some c)
    (hkey : registryKey c.Namespace c.Name =
      registryKey component.Namespace component.Name) :
    ((d.RemoveDiscover component).AddDiscover dis).registered
        (registryKey component.Namespace component.Name) =
      some (d.workers.length, { discover := dis, cancelled := false, stoped := false }) ∧
    d.workers.length ≠ a ∧
    ((d.RemoveDiscover component).AddDiscover dis).loops =
      d.loops ++ [{ worker := d.workers.length, pc := Pc.start, calls := 0 }] ∧
    ((d.RemoveDiscover component).AddDiscover dis).workerCtxDone
      { discover := dis, cancelled := false, stoped := false } = d.ctxDone ∧
    ((d.RemoveDiscover component).AddDiscover dis).workers[a]? = some w.Stop ∧
    w.Stop.IsStop = w.IsStop ∧
    ((d.RemoveDiscover component).AddDiscover dis).workerCtxDone w.Stop = true ∧
    ∀ (l : Loop) (msgs : List ThirdComponent), l.worker = a → l.pc = Pc.check →
      (Worker.Start.step ((d.RemoveDiscover component).AddDiscover dis) l msgs).2.pc =
        Pc.exited ∧
      ((Worker.Start.step ((d.RemoveDiscover component).AddDiscover dis) l
        msgs).1.workers[a]?).map Worker.IsStop = some true := by
  obtain ⟨hl, hw⟩ := registered_iff.mp hreg
  have hlt : a < d.workers.length := (List.getElem?_eq_some_iff.mp hw).1
  have heq := remove_add_eq hdis hkey hl
  have hwa : ((d.RemoveDiscover component).AddDiscover dis).workers[a]? = some w.Stop := by
    rw [heq]
    show (d.workers.modify Worker.Stop a ++ [d.newWorker dis])[a]? = _
    rw [List.getElem?_append_left (by rw [List.length_modify]; exact hlt),
      List.getElem?_modify_eq, hw]
    rfl
  have hdone : ((d.RemoveDiscover component).AddDiscover dis).workerCtxDone w.Stop = true := by
    simp [DiscoverPool.workerCtxDone, Worker.Stop]
  refine ⟨?_, Nat.ne_of_gt hlt, ?_, ?_, hwa, rfl, hdone, ?_⟩
  · apply registered_iff.mpr
    rw [heq]
    refine ⟨AList.lookup_insert _, ?_⟩
    show (d.workers.modify Worker.Stop a ++ [d.newWorker dis])[d.workers.length]? = _
    have hlen : d.workers.length = (d.workers.modify Worker.Stop a).length := by
      rw [List.length_modify]
    rw [hlen, List.getElem?_concat_length]
    rfl
  · rw [heq]
  · rw [heq]
    simp [DiscoverPool.workerCtxDone]
  · intro l msgs hla hpc
    unfold Worker.Start.step
    rw [hpc]
    simp only
    rw [hla, hwa]
    simp only
    rw [if_pos hdone]
    refine ⟨rfl, ?_⟩
    show Option.map Worker.IsStop (List.modify _ a _)[a]? = _
    rw [List.getElem?_modify_eq, hwa]
    rfl

theorem remove_then_add_witness :
    poolRunning.registered (registryKey compA.Namespace compA.Name) =
      some (0, { discover := disA, cancelled := false, stoped := false }) ∧
    ((poolRunning.RemoveDiscover compA).AddDiscover disA2).registered
        (registryKey compA.Namespace compA.Name) =
      some (1, { discover := disA2, cancelled := false, stoped := false }) ∧
    ((poolRunning.RemoveDiscover compA).AddDiscover disA2).workers[0]? =
      some { discover := disA, cancelled := true, stoped := false } :=
  ⟨by decide,
    (remove_then_add poolRunning compA compA disA2 0
      { discover := disA, cancelled := false, stoped := false } (by decide) rfl rfl).1,
    (remove_then_add poolRunning compA compA disA2 0
      { discover := disA, cancelled := false, stoped := false } (by decide) rfl
      rfl).2.2.2.2.1⟩

end thirdcomponent
